import Mathlib

/-!
Verification of the `tae` (time-lagged autoencoder) API layer of the
deeptime repository, `tae/api.py`, against its design specification.

The API layer (`_transform`, `pca`, `tica`, `ae`) is embedded from the
source.  The estimator internals it imports (`tae.models.PCA/TICA/AE`,
`tae.utils.create_dataset/random_split/whiten_data`, and the torch
`DataLoader`) are not part of the given source tree; where a claim
depends on them they are modelled from the specification, as noted in
each doc comment.  Scalars are rationals (the floating-point arithmetic
of the original is modelled as exact arithmetic); randomness (the
split permutation) is passed explicitly; the square root used by the
whitening step is passed explicitly as a function `st`.
-/

set_option autoImplicit false

universe u

namespace Tae

/-- A single observation vector (one row of a 2-D data array). -/
abbrev Row : Type := List ℚ

/-- A 2-D data array, stored as its list of rows. -/
abbrev Mat : Type := List Row

/-- A sample pair `(x_t, x_{t+lag})`. -/
abbrev Pair : Type := Row × Row

/-- The argument `data` of the API functions: a single 2-D array, or a
list/tuple of such arrays.  This mirrors the
`isinstance(data, (list, tuple))` branch in `api.py` line 37. -/
inductive ApiData where
  | single (s : Mat)
  | multi (l : List Mat)
deriving DecidableEq

/-- Number of rows per series: `[d.shape[0] for d in data]` for a
list, and the single `shape[0]` for one array. -/
def rowCounts : ApiData → List ℕ
  | .single s => [s.length]
  | .multi l => l.map List.length

/-- Whether the value is the list form (`isinstance(data, (list, tuple))`). -/
def isMulti : ApiData → Bool
  | .single _ => false
  | .multi _ => true

/-- Total number of observation rows in the input. -/
def totalRows : ApiData → ℕ
  | .single s => s.length
  | .multi l => (l.map List.length).sum

/-- Modelled from the spec (§3, §4.1): the sample pairs of one series,
`(x_t, x_{t+lag})` for `t ∈ [0, T−lag)`; a series with `T ≤ lag`
contributes no pairs. -/
def seriesPairs (lag : ℕ) (s : Mat) : List Pair :=
  s.zip (s.drop lag)

/-- Modelled from the spec (§4.1): `tae.utils.create_dataset` builds the
windowed dataset from a single series or a list of series, per series
independently, in series order then temporal order. -/
def create_dataset (data : ApiData) (lag : ℕ) : List Pair :=
  match data with
  | .single s => seriesPairs lag s
  | .multi l => (l.map (seriesPairs lag)).flatten

/-- Fuel-driven worker for `toBatches` (structural recursion; the fuel
is an upper bound on the list length). -/
def toBatchesGo {α : Type u} (B : ℕ) : ℕ → List α → List (List α)
  | 0, _ => []
  | _, [] => []
  | fuel + 1, x :: xs => (x :: xs).take B :: toBatchesGo B fuel (xs.drop (B - 1))

/-- Modelled from the spec (§4.3): the torch `DataLoader` as used in
`api.py` (shuffle left at its default, i.e. off) yields the dataset
split sequentially into batches of up to `B` consecutive elements, the
last batch possibly smaller, in a deterministic order. -/
def toBatches {α : Type u} (B : ℕ) (l : List α) : List (List α) :=
  toBatchesGo B l.length l

/-- Modelled from the spec (§4.4–§4.6): a fitted model, reduced to its
transform stage, which maps each sample's instantaneous part `x_t`
through one fixed per-row function (PCA/TICA: `(x − mean) · P`; AE: the
encoder stage). -/
structure Model where
  g : Row → Row

/-- Modelled from the spec (§4.4, §4.6): `model.transform(loader)`
processes the loader batch by batch, applies the per-row transform to
each sample's first component, and concatenates the batch results in
order. -/
def Model.transform (m : Model) (loader : List (List Pair)) : Mat :=
  (loader.map (fun b => b.map (fun p => m.g p.1))).flatten

theorem toBatchesGo_flatten {α : Type u} (B : ℕ) (hB : 1 ≤ B) :
    ∀ (n : ℕ) (l : List α), l.length ≤ n → (toBatchesGo B n l).flatten = l := by
  intro n
  induction n with
  | zero =>
    intro l hl
    have : l = [] := List.length_eq_zero.mp (Nat.le_zero.mp hl)
    subst this
    rfl
  | succ n ih =>
    intro l hl
    cases l with
    | nil => rfl
    | cons x xs =>
      have hlen : (xs.drop (B - 1)).length ≤ n := by
        simp only [List.length_drop]
        simp only [List.length_cons] at hl
        omega
      have hrec := ih (xs.drop (B - 1)) hlen
      obtain ⟨B', rfl⟩ : ∃ B', B = B' + 1 := ⟨B - 1, by omega⟩
      simp only [Nat.add_sub_cancel] at hrec
      simp only [toBatchesGo, List.flatten_cons, List.take_succ_cons,
        Nat.add_sub_cancel, hrec, List.cons_append, List.take_append_drop]

/-- Concatenating the batches in order recovers the dataset. -/
theorem toBatches_flatten {α : Type u} (B : ℕ) (hB : 1 ≤ B) (l : List α) :
    (toBatches B l).flatten = l :=
  toBatchesGo_flatten B hB l.length l le_rfl

theorem toBatchesGo_getD {α : Type u} (B : ℕ) (hB : 1 ≤ B) :
    ∀ (i n : ℕ) (l : List α), l.length ≤ n → i < (toBatchesGo B n l).length →
      (toBatchesGo B n l).getD i [] = (l.drop (B * i)).take B := by
  intro i
  induction i with
  | zero =>
    intro n l hl hi
    match n, l with
    | 0, l => exact absurd hi (by simp [toBatchesGo])
    | n + 1, [] => exact absurd hi (by simp [toBatchesGo])
    | n + 1, x :: xs => simp [toBatchesGo]
  | succ i ih =>
    intro n l hl hi
    match n, l with
    | 0, l => exact absurd hi (by simp [toBatchesGo])
    | n + 1, [] => exact absurd hi (by simp [toBatchesGo])
    | n + 1, x :: xs =>
      have hlen : (xs.drop (B - 1)).length ≤ n := by
        simp only [List.length_drop]
        simp only [List.length_cons] at hl
        omega
      have hi' : i < (toBatchesGo B n (xs.drop (B - 1))).length := by
        simpa [toBatchesGo] using hi
      have hrec := ih n (xs.drop (B - 1)) hlen hi'
      simp only [toBatchesGo, List.getD_cons_succ, hrec, List.drop_drop]
      have harith : B * i + (B - 1) + 1 = B * (i + 1) := by
        cases B with
        | zero => omega
        | succ B' => ring_nf; omega
      rw [← List.drop_drop, ← harith, List.drop_drop]
      simp only [List.drop_succ_cons]
      rw [Nat.add_comm (B - 1) (B * i)]

/-- The `i`-th batch is the `i`-th consecutive block of the dataset. -/
theorem toBatches_getD {α : Type u} (B : ℕ) (hB : 1 ≤ B) (l : List α) (i : ℕ)
    (hi : i < (toBatches B l).length) :
    (toBatches B l).getD i [] = (l.drop (B * i)).take B :=
  toBatchesGo_getD B hB i l.length l le_rfl hi

/-- `transform` is the per-row map over the flattened loader. -/
theorem Model.transform_eq_map (m : Model) (loader : List (List Pair)) :
    m.transform loader = loader.flatten.map (fun p => m.g p.1) := by
  simp [Model.transform, List.map_flatten]

/-- Over the batched dataset, `transform` is the per-row map over the
dataset itself: row order of the output matches dataset order. -/
theorem Model.transform_toBatches (m : Model) (B : ℕ) (hB : 1 ≤ B)
    (ds : List Pair) :
    m.transform (toBatches B ds) = ds.map (fun p => m.g p.1) := by
  rw [Model.transform_eq_map, toBatches_flatten B hB]

/-- Mean of column `j` of a matrix (missing entries read as 0). -/
def colMean (M : Mat) (j : ℕ) : ℚ :=
  (M.map (fun r => r.getD j 0)).sum / M.length

/-- Sample variance of column `j` of a matrix (unbiased, divisor `N − 1`). -/
def colVar (M : Mat) (j : ℕ) : ℚ :=
  (M.map (fun r => (r.getD j 0 - colMean M j) ^ 2)).sum / ((M.length : ℚ) - 1)

/-- One row of the whitening step: entry `j` is divided by the standard
deviation of column `j` of the whole matrix `M`, the square root being
supplied as `st`. -/
def whitenRow (st : ℚ → ℚ) (M : Mat) (r : Row) : Row :=
  (List.range r.length).map (fun j => r.getD j 0 / st (colVar M j))

/-- Modelled from the spec (§4.7): `tae.utils.whiten_data` rescales each
column of an already-transformed matrix to unit sample variance by
dividing it by its standard deviation. -/
def whiten_data (st : ℚ → ℚ) (M : Mat) : Mat :=
  M.map (whitenRow st M)

/-- The slicing loop of `_transform` (api.py lines 38–44): a running
offset `p` walks the concatenated array, emitting `td[p : p+length]`
for each series length; iterated `drop`/`take` expresses the same
slices. -/
def sliceByLengths (td : Mat) : List ℕ → List Mat
  | [] => []
  | L :: rest => td.take L :: sliceByLengths (td.drop L) rest

/-- The concatenated transformed array of `_transform` (api.py lines
32–36) before any slicing: the model's transform of the lag-0 loader,
whitened when requested. -/
def fullTransformed (st : ℚ → ℚ) (m : Model) (data_0 : List Pair)
    (batch_size : ℕ) (whiten : Bool) : Mat :=
  let loader := toBatches batch_size data_0
  if whiten then whiten_data st (m.transform loader) else m.transform loader

/-- `tae.api._transform` (api.py lines 31–45): build a loader on the
lag-0 dataset, transform (optionally whitening), then either slice the
result back into per-series chunks (list/tuple input) or return the
single array. -/
def _transform (st : ℚ → ℚ) (m : Model) (data : ApiData) (data_0 : List Pair)
    (batch_size : ℕ) (whiten : Bool) : ApiData :=
  match data with
  | .multi l =>
      .multi (sliceByLengths (fullTransformed st m data_0 batch_size whiten)
        (l.map List.length))
  | .single _ => .single (fullTransformed st m data_0 batch_size whiten)

theorem whitenRow_length (st : ℚ → ℚ) (M : Mat) (r : Row) :
    (whitenRow st M r).length = r.length := by
  simp [whitenRow]

theorem whiten_data_length (st : ℚ → ℚ) (M : Mat) :
    (whiten_data st M).length = M.length := by
  simp [whiten_data]

theorem seriesPairs_zero (s : Mat) : seriesPairs 0 s = s.zip s := by
  simp [seriesPairs]

theorem seriesPairs_zero_length (s : Mat) : (seriesPairs 0 s).length = s.length := by
  simp [seriesPairs]

theorem create_dataset_zero_length (data : ApiData) :
    (create_dataset data 0).length = totalRows data := by
  cases data with
  | single s => simp [create_dataset, totalRows, seriesPairs_zero_length]
  | multi l =>
    simp only [create_dataset, totalRows, List.length_flatten, List.map_map]
    congr 1
    apply List.map_congr_left
    intro s _
    simp [seriesPairs_zero_length]

theorem fullTransformed_length (st : ℚ → ℚ) (m : Model) (data_0 : List Pair)
    (B : ℕ) (hB : 1 ≤ B) (w : Bool) :
    (fullTransformed st m data_0 B w).length = data_0.length := by
  cases w with
  | false => simp [fullTransformed, Model.transform_toBatches m B hB]
  | true =>
    simp [fullTransformed, whiten_data_length, Model.transform_toBatches m B hB]

theorem sliceByLengths_length (td : Mat) (ls : List ℕ) :
    (sliceByLengths td ls).length = ls.length := by
  induction ls generalizing td with
  | nil => rfl
  | cons L rest ih => simp [sliceByLengths, ih]

theorem sliceByLengths_map_length (td : Mat) (ls : List ℕ)
    (h : ls.sum ≤ td.length) :
    (sliceByLengths td ls).map List.length = ls := by
  induction ls generalizing td with
  | nil => rfl
  | cons L rest ih =>
    simp only [List.sum_cons] at h
    simp only [sliceByLengths, List.map_cons, List.length_take]
    rw [ih (td.drop L) (by simp only [List.length_drop]; omega)]
    congr 1
    omega

theorem sliceByLengths_getD (td : Mat) (ls : List ℕ) (i : ℕ)
    (h : ls.sum ≤ td.length) (hi : i < ls.length) :
    (sliceByLengths td ls).getD i [] =
      (td.drop ((ls.take i).sum)).take (ls.getD i 0) := by
  induction ls generalizing td i with
  | nil => simp at hi
  | cons L rest ih =>
    cases i with
    | zero => simp [sliceByLengths]
    | succ i =>
      simp only [List.sum_cons] at h
      simp only [List.length_cons, Nat.succ_lt_succ_iff] at hi
      simp only [sliceByLengths, List.getD_cons_succ, List.take_succ_cons,
        List.sum_cons]
      rw [ih (td.drop L) i (by simp only [List.length_drop]; omega) hi,
        List.drop_drop, Nat.add_comm]

/-- Modelled from the spec (§4.2): `tae.utils.random_split` partitions
a dataset into `(validation, train)` at a uniformly random permutation
cut, with validation size `round(f_active · N)`.  The random
permutation of the index range is passed explicitly as `perm`. -/
def random_split (ds : List Pair) (f_active : ℚ) (perm : List ℕ) :
    List Pair × List Pair :=
  let m := (round (f_active * (ds.length : ℚ))).toNat
  ((perm.take m).map (fun i => ds.getD i ([], [])),
   (perm.drop m).map (fun i => ds.getD i ([], [])))

/-- The statistics a linear estimator accumulates batch by batch over a
loader: the sample count, the sums of the instantaneous and lagged
parts, and the sums of the outer products `x xᵀ` and `x yᵀ`
(mean, `C₀₀` and `C₀₁` are derived from these). -/
structure Stats where
  count : ℕ
  sumX : Row
  sumY : Row
  sumXX : Mat
  sumXY : Mat
deriving DecidableEq

/-- Padded row addition (the empty row is the zero accumulator). -/
def addRow : Row → Row → Row
  | [], r => r
  | a :: as, [] => a :: as
  | a :: as, b :: bs => (a + b) :: addRow as bs

/-- Padded matrix addition (the empty matrix is the zero accumulator). -/
def addMat : Mat → Mat → Mat
  | [], m => m
  | r :: rs, [] => r :: rs
  | r :: rs, q :: qs => addRow r q :: addMat rs qs

/-- Outer product of two rows. -/
def outer (x y : Row) : Mat :=
  x.map (fun xi => y.map (fun yj => xi * yj))

/-- Fold step: absorb one sample pair into the running statistics. -/
def statsStep (s : Stats) (p : Pair) : Stats :=
  { count := s.count + 1
    sumX := addRow s.sumX p.1
    sumY := addRow s.sumY p.2
    sumXX := addMat s.sumXX (outer p.1 p.1)
    sumXY := addMat s.sumXY (outer p.1 p.2) }

/-- The empty accumulator. -/
def initStats : Stats := ⟨0, [], [], [], []⟩

/-- Modelled from the spec (§4.4–§4.5): a linear estimator's fit makes a
full pass over the training loader, batch by batch, accumulating the
(co)variance statistics. -/
def statsOfLoader (loader : List (List Pair)) : Stats :=
  loader.foldl (fun s b => b.foldl statsStep s) initStats

/-- Modelled from the spec (§4.4–§4.5): the solver part of a linear
estimator's fit — eigendecomposition of the accumulated statistics,
producing the fitted transform (as a per-row function) and the training
loss, plus the loss evaluation on a held-out loader's statistics.  Both
are deterministic functions of their arguments; the numerics of the
eigensolver itself are not modelled. -/
structure LinSolver where
  solve : Option ℕ → Stats → Model × ℚ
  lossOn : Model → Stats → ℚ

/-- The fit call of a linear estimator: solve on the training loader's
accumulated statistics; the validation loss is computed on the test
loader when one is given and is absent (`None`/NaN) otherwise. -/
def linFit (S : LinSolver) (train_loader : List (List Pair)) (dim : Option ℕ)
    (test_loader : Option (List (List Pair))) : Model × ℚ × Option ℚ :=
  let fitted := S.solve dim (statsOfLoader train_loader)
  (fitted.1, fitted.2,
   test_loader.map (fun tl => S.lossOn fitted.1 (statsOfLoader tl)))

/-- The loader-building branch shared by `pca`/`tica`/`ae` (api.py
lines 67–74, 107–114, 159–166): with no `validation_split` the whole
dataset becomes the train loader and there is no test loader; otherwise
`random_split` yields `(data_test, data_train)` and each part gets its
own loader. -/
def linLoaders (data_set : List Pair) (validation_split : Option ℚ) (B : ℕ)
    (perm : List ℕ) : List (List Pair) × Option (List (List Pair)) :=
  match validation_split with
  | none => (toBatches B data_set, none)
  | some f =>
      let s := random_split data_set f perm
      (toBatches B s.2, some (toBatches B s.1))

/-- The fit stage of `tae.api.pca` (api.py lines 66–77): dataset at
lag 0, optional split, `PCA().fit`. -/
def pcaFit (S : LinSolver) (data : ApiData) (dim : Option ℕ)
    (validation_split : Option ℚ) (B : ℕ) (perm : List ℕ) :
    Model × ℚ × Option ℚ :=
  let L := linLoaders (create_dataset data 0) validation_split B perm
  linFit S L.1 dim L.2

/-- `tae.api.pca` (api.py lines 47–79).  The eigensolver `S` and the
whitening square root `st` are spec-modelled parameters; `perm` is the
random permutation consumed by `random_split` when a split is
requested. -/
def pca (S : LinSolver) (st : ℚ → ℚ) (data : ApiData) (dim : Option ℕ)
    (validation_split : Option ℚ) (batch_size : ℕ) (whiten : Bool)
    (perm : List ℕ) : ApiData × ℚ × Option ℚ :=
  let R := pcaFit S data dim validation_split batch_size perm
  (_transform st R.1 data (create_dataset data 0) batch_size whiten,
   R.2.1, R.2.2)

/-- The fit stage of `tae.api.tica` (api.py lines 105–117): datasets at
lag 0 and at `lag`, optional split of the lagged dataset,
`TICA(kinetic_map, symmetrize).fit`.  The solver family `S` takes the
`kinetic_map` and `symmetrize` flags. -/
def ticaFit (S : Bool → Bool → LinSolver) (data : ApiData) (dim : Option ℕ)
    (lag : ℕ) (kinetic_map symmetrize : Bool) (validation_split : Option ℚ)
    (B : ℕ) (perm : List ℕ) : Model × ℚ × Option ℚ :=
  let L := linLoaders (create_dataset data lag) validation_split B perm
  linFit (S kinetic_map symmetrize) L.1 dim L.2

/-- `tae.api.tica` (api.py lines 81–119): fit on the lagged dataset,
transform on the lag-0 dataset. -/
def tica (S : Bool → Bool → LinSolver) (st : ℚ → ℚ) (data : ApiData)
    (dim : Option ℕ) (lag : ℕ) (kinetic_map symmetrize : Bool)
    (validation_split : Option ℚ) (batch_size : ℕ) (whiten : Bool)
    (perm : List ℕ) : ApiData × ℚ × Option ℚ :=
  let R := ticaFit S data dim lag kinetic_map symmetrize validation_split
    batch_size perm
  (_transform st R.1 data (create_dataset data 0) batch_size whiten,
   R.2.1, R.2.2)

/-- The values appearing in `ae`'s configuration dictionary
(api.py lines 143–151): a list of hidden-layer widths, a dropout module
with its rate, the LeakyReLU nonlinearity, Python's `None`, a boolean,
or a numeric value such as the learning rate. -/
inductive AeVal where
  | natList (l : List ℕ)
  | dropoutModule (p : ℚ)
  | leakyReLU
  | pyNone
  | bool (b : Bool)
  | rat (q : ℚ)
deriving DecidableEq

/-- A Python dictionary with string keys, as an insertion-ordered
association list (keys unique by construction of the operations). -/
abbrev PyDict : Type := List (String × AeVal)

/-- Dictionary lookup. -/
def getKey? : PyDict → String → Option AeVal
  | [], _ => none
  | p :: rest, k => if p.1 = k then some p.2 else getKey? rest k

/-- Store one key: replace the value in place when the key is present,
append otherwise (Python dict item assignment). -/
def setKey : PyDict → String × AeVal → PyDict
  | [], kv => [kv]
  | p :: rest, kv => if p.1 = kv.1 then kv :: rest else p :: setKey rest kv

/-- `d.update(kwargs)` of Python dictionaries (api.py line 152): every
key of `kwargs` — recognized or not — is stored into `d` in order. -/
def pyUpdate (d : PyDict) (kwargs : PyDict) : PyDict :=
  kwargs.foldl setKey d

/-- The default configuration `ae_args` of `tae.api.ae` (api.py lines
143–151): `hid_size=[100]`, `dropout=nn.Dropout(p=0.5)`,
`activation=nn.LeakyReLU()`, `lat_activation=None`,
`batch_normalization=None`, `bias=True`, `lr=0.001`, `cuda=False`. -/
def aeDefaults : PyDict :=
  [("hid_size", .natList [100]),
   ("dropout", .dropoutModule (1 / 2)),
   ("activation", .leakyReLU),
   ("lat_activation", .pyNone),
   ("batch_normalization", .pyNone),
   ("bias", .bool true),
   ("lr", .rat (1 / 1000)),
   ("cuda", .bool false)]

/-- `size = data.shape[1]` with the `AttributeError` fallback
`size = data[0].shape[1]` (api.py lines 153–156): a single 2-D array
has a `shape`, so its column count is read directly; a list has no
`shape` attribute, so the column count of the FIRST series is read.
A 2-D array's column count is represented by its first row's length. -/
def aeSize : ApiData → ℕ
  | .single s => (s.headD []).length
  | .multi l => ((l.headD []).headD []).length

/-- Modelled from the spec (§4.6): the training part of `AE.fit` — an
iterative, per-batch gradient descent over `n_epochs` epochs — reduced
to a deterministic function (given fixed random draws) of the input
width, the latent dimension, the configuration dictionary, the training
loader and the epoch count, returning the fitted encoder and the final
training loss; `lossOn` evaluates a fitted model on a held-out loader
without updates. -/
structure AeTrainer where
  train : ℕ → Option ℕ → PyDict → List (List Pair) → ℕ → Model × ℚ
  lossOn : Model → List (List Pair) → ℚ

/-- The fit stage of `tae.api.ae` (api.py lines 143–169): merge the
keyword overrides into the defaults, read the input width, build the
lagged dataset and loaders, train; the validation loss is computed on
the test loader when one exists and is absent otherwise. -/
def aeFit (T : AeTrainer) (data : ApiData) (dim : Option ℕ) (lag : ℕ)
    (n_epochs : ℕ) (validation_split : Option ℚ) (B : ℕ) (kwargs : PyDict)
    (perm : List ℕ) : Model × ℚ × Option ℚ :=
  let ae_args := pyUpdate aeDefaults kwargs
  let size := aeSize data
  let L := linLoaders (create_dataset data lag) validation_split B perm
  let trained := T.train size dim ae_args L.1 n_epochs
  (trained.1, trained.2, L.2.map (fun tl => T.lossOn trained.1 tl))

/-- `tae.api.ae` (api.py lines 121–171): fit the autoencoder on the
lagged dataset, transform (encoder only) on the lag-0 dataset. -/
def ae (T : AeTrainer) (st : ℚ → ℚ) (data : ApiData) (dim : Option ℕ)
    (lag : ℕ) (n_epochs : ℕ) (validation_split : Option ℚ) (batch_size : ℕ)
    (whiten : Bool) (kwargs : PyDict) (perm : List ℕ) :
    ApiData × ℚ × Option ℚ :=
  let R := aeFit T data dim lag n_epochs validation_split batch_size kwargs perm
  (_transform st R.1 data (create_dataset data 0) batch_size whiten,
   R.2.1, R.2.2)

/-- The container-restoring step of `_transform` in isolation: slice a
concatenated matrix back into per-series chunks for list input, return
it unchanged for single-array input. -/
def reassemble (data : ApiData) (td : Mat) : ApiData :=
  match data with
  | .multi l => .multi (sliceByLengths td (l.map List.length))
  | .single _ => .single td

theorem getKey?_setKey_self (d : PyDict) (kv : String × AeVal) :
    getKey? (setKey d kv) kv.1 = some kv.2 := by
  induction d with
  | nil => simp [setKey, getKey?]
  | cons p rest ih =>
    by_cases h : p.1 = kv.1
    · simp [setKey, getKey?, h]
    · simp [setKey, getKey?, h, ih]

theorem getKey?_setKey_ne (d : PyDict) (kv : String × AeVal) (k : String)
    (h : kv.1 ≠ k) : getKey? (setKey d kv) k = getKey? d k := by
  induction d with
  | nil => simp [setKey, getKey?, h]
  | cons p rest ih =>
    by_cases hp : p.1 = kv.1
    · simp [setKey, getKey?, hp, h]
    · simp [setKey, getKey?, hp, ih]

theorem getKey?_eq_none_of_not_mem_keys (d : PyDict) (k : String)
    (h : k ∉ d.map Prod.fst) : getKey? d k = none := by
  induction d with
  | nil => rfl
  | cons p rest ih =>
    simp only [List.map_cons, List.mem_cons, not_or] at h
    simp [getKey?, Ne.symm h.1, ih h.2]

theorem getKey?_pyUpdate_of_none (d kwargs : PyDict) (k : String)
    (h : getKey? kwargs k = none) :
    getKey? (pyUpdate d kwargs) k = getKey? d k := by
  induction kwargs generalizing d with
  | nil => rfl
  | cons p rest ih =>
    simp only [getKey?] at h
    by_cases hp : p.1 = k
    · simp [hp] at h
    · simp only [hp, if_false] at h
      simpa only [pyUpdate, List.foldl_cons] using
        (ih (setKey d p) h).trans (getKey?_setKey_ne d p k hp)

theorem getKey?_pyUpdate_of_mem (d kwargs : PyDict) (k : String) (v : AeVal)
    (hnd : (kwargs.map Prod.fst).Nodup) (hmem : (k, v) ∈ kwargs) :
    getKey? (pyUpdate d kwargs) k = some v := by
  induction kwargs generalizing d with
  | nil => simp at hmem
  | cons p rest ih =>
    simp only [List.map_cons, List.nodup_cons] at hnd
    rcases List.mem_cons.mp hmem with heq | hmem'
    · subst heq
      have hnone : getKey? rest k = none :=
        getKey?_eq_none_of_not_mem_keys rest k hnd.1
      simpa only [pyUpdate, List.foldl_cons] using
        (getKey?_pyUpdate_of_none (setKey d (k, v)) rest k hnone).trans
          (getKey?_setKey_self d (k, v))
    · simpa only [pyUpdate, List.foldl_cons] using
        ih (setKey d p) hnd.2 hmem'

theorem statsOfLoader_toBatches (B : ℕ) (hB : 1 ≤ B) (ds : List Pair) :
    statsOfLoader (toBatches B ds) = ds.foldl statsStep initStats := by
  simp only [statsOfLoader, ← List.foldl_flatten, toBatches_flatten B hB]

theorem whitenRow_getD (st : ℚ → ℚ) (M : Mat) (r : Row) (j : ℕ) :
    (whitenRow st M r).getD j 0 = r.getD j 0 / st (colVar M j) := by
  by_cases h : j < r.length
  · rw [whitenRow, List.getD_eq_getElem?_getD, List.getElem?_map,
      List.getElem?_range h]
    rfl
  · rw [whitenRow, List.getD_eq_getElem?_getD, List.getElem?_map,
      List.getElem?_eq_none (by simpa using Nat.le_of_not_lt h),
      List.getD_eq_default _ _ (Nat.le_of_not_lt h)]
    simp

theorem colMean_whiten (st : ℚ → ℚ) (M : Mat) (j : ℕ) :
    colMean (whiten_data st M) j = colMean M j / st (colVar M j) := by
  have hmap : (whiten_data st M).map (fun r => r.getD j 0) =
      M.map (fun r => r.getD j 0 * (st (colVar M j))⁻¹) := by
    simp only [whiten_data, List.map_map]
    refine List.map_congr_left fun r _ => ?_
    simp only [Function.comp_apply]
    rw [whitenRow_getD, div_eq_mul_inv]
  simp only [colMean, whiten_data_length, hmap, List.sum_map_mul_right,
    div_eq_mul_inv]
  ring

theorem colVar_whiten (st : ℚ → ℚ) (M : Mat) (j : ℕ)
    (hs : st (colVar M j) ^ 2 = colVar M j) (hv : colVar M j ≠ 0) :
    colVar (whiten_data st M) j = 1 := by
  have hs0 : st (colVar M j) ≠ 0 := by
    intro h0
    exact hv (by rw [← hs, h0]; ring)
  have hmap : (whiten_data st M).map
        (fun r => (r.getD j 0 - colMean (whiten_data st M) j) ^ 2) =
      M.map (fun r => (r.getD j 0 - colMean M j) ^ 2 *
        ((st (colVar M j))⁻¹ ^ 2)) := by
    simp only [colMean_whiten]
    simp only [whiten_data, List.map_map]
    refine List.map_congr_left fun r _ => ?_
    simp only [Function.comp_apply]
    rw [whitenRow_getD, div_sub_div_same, div_pow]
    ring
  have hvar : colVar (whiten_data st M) j =
      colVar M j * ((st (colVar M j))⁻¹ ^ 2) := by
    simp only [colVar, whiten_data_length, hmap, List.sum_map_mul_right]
    ring
  rw [hvar, inv_pow, hs]
  exact mul_inv_cancel₀ hv

/-- Batch-free statistics accumulation: one fold over the dataset. -/
def statsOfData (ds : List Pair) : Stats :=
  ds.foldl statsStep initStats

/-- Batch-free form of `linLoaders`: the train and test parts before
any batching. -/
def linParts (ds : List Pair) (validation_split : Option ℚ) (perm : List ℕ) :
    List Pair × Option (List Pair) :=
  match validation_split with
  | none => (ds, none)
  | some f =>
      let s := random_split ds f perm
      (s.2, some s.1)

/-- Batch-free form of `fullTransformed`: the per-row map over the
dataset, whitened when requested. -/
def fullTransformedNB (st : ℚ → ℚ) (m : Model) (d0 : List Pair) (w : Bool) :
    Mat :=
  if w then whiten_data st (d0.map (fun p => m.g p.1))
  else d0.map (fun p => m.g p.1)

theorem linLoaders_fst (ds : List Pair) (vs : Option ℚ) (B : ℕ)
    (perm : List ℕ) :
    (linLoaders ds vs B perm).1 = toBatches B (linParts ds vs perm).1 := by
  cases vs <;> rfl

theorem linLoaders_snd (ds : List Pair) (vs : Option ℚ) (B : ℕ)
    (perm : List ℕ) :
    (linLoaders ds vs B perm).2 = (linParts ds vs perm).2.map (toBatches B) := by
  cases vs <;> rfl

theorem _transform_eq_reassemble (st : ℚ → ℚ) (m : Model) (data : ApiData)
    (d0 : List Pair) (B : ℕ) (w : Bool) :
    _transform st m data d0 B w = reassemble data (fullTransformed st m d0 B w) := by
  cases data <;> rfl

theorem fullTransformed_batchFree (B : ℕ) (hB : 1 ≤ B) (st : ℚ → ℚ)
    (m : Model) (d0 : List Pair) (w : Bool) :
    fullTransformed st m d0 B w = fullTransformedNB st m d0 w := by
  cases w <;> simp [fullTransformed, fullTransformedNB,
    Model.transform_toBatches m B hB]

/-- Batch-free form of `pca`. -/
def pcaNB (S : LinSolver) (st : ℚ → ℚ) (data : ApiData) (dim : Option ℕ)
    (validation_split : Option ℚ) (whiten : Bool) (perm : List ℕ) :
    ApiData × ℚ × Option ℚ :=
  let P := linParts (create_dataset data 0) validation_split perm
  let fitted := S.solve dim (statsOfData P.1)
  (reassemble data (fullTransformedNB st fitted.1 (create_dataset data 0) whiten),
   fitted.2, P.2.map (fun tl => S.lossOn fitted.1 (statsOfData tl)))

/-- Batch-free form of `tica`. -/
def ticaNB (S : Bool → Bool → LinSolver) (st : ℚ → ℚ) (data : ApiData)
    (dim : Option ℕ) (lag : ℕ) (kinetic_map symmetrize : Bool)
    (validation_split : Option ℚ) (whiten : Bool) (perm : List ℕ) :
    ApiData × ℚ × Option ℚ :=
  let P := linParts (create_dataset data lag) validation_split perm
  let fitted := (S kinetic_map symmetrize).solve dim (statsOfData P.1)
  (reassemble data (fullTransformedNB st fitted.1 (create_dataset data 0) whiten),
   fitted.2,
   P.2.map (fun tl => (S kinetic_map symmetrize).lossOn fitted.1 (statsOfData tl)))

theorem pca_batchFree (S : LinSolver) (st : ℚ → ℚ) (data : ApiData)
    (dim : Option ℕ) (vs : Option ℚ) (B : ℕ) (w : Bool) (perm : List ℕ)
    (hB : 1 ≤ B) :
    pca S st data dim vs B w perm = pcaNB S st data dim vs w perm := by
  have h2 : ∀ (m : Model) (o : Option (List Pair)),
      (o.map (toBatches B)).map (fun tl => S.lossOn m (statsOfLoader tl)) =
        o.map (fun tl => S.lossOn m (statsOfData tl)) := by
    intro m o
    cases o <;> simp [statsOfLoader_toBatches B hB, statsOfData]
  simp only [pca, pcaFit, linFit, pcaNB, linLoaders_fst, linLoaders_snd,
    statsOfLoader_toBatches B hB, statsOfData, _transform_eq_reassemble,
    fullTransformed_batchFree B hB, h2]

theorem tica_batchFree (S : Bool → Bool → LinSolver) (st : ℚ → ℚ)
    (data : ApiData) (dim : Option ℕ) (lag : ℕ) (km sym : Bool)
    (vs : Option ℚ) (B : ℕ) (w : Bool) (perm : List ℕ) (hB : 1 ≤ B) :
    tica S st data dim lag km sym vs B w perm =
      ticaNB S st data dim lag km sym vs w perm := by
  have h2 : ∀ (m : Model) (o : Option (List Pair)),
      (o.map (toBatches B)).map
          (fun tl => (S km sym).lossOn m (statsOfLoader tl)) =
        o.map (fun tl => (S km sym).lossOn m (statsOfData tl)) := by
    intro m o
    cases o <;> simp [statsOfLoader_toBatches B hB, statsOfData]
  simp only [tica, ticaFit, linFit, ticaNB, linLoaders_fst, linLoaders_snd,
    statsOfLoader_toBatches B hB, statsOfData, _transform_eq_reassemble,
    fullTransformed_batchFree B hB, h2]

theorem rowCounts_transform (st : ℚ → ℚ) (m : Model) (data : ApiData)
    (B : ℕ) (hB : 1 ≤ B) (w : Bool) :
    isMulti (_transform st m data (create_dataset data 0) B w) = isMulti data ∧
    rowCounts (_transform st m data (create_dataset data 0) B w) = rowCounts data := by
  have hlen : (fullTransformed st m (create_dataset data 0) B w).length =
      totalRows data := by
    rw [fullTransformed_length st m _ B hB w, create_dataset_zero_length]
  cases data with
  | single s =>
    refine ⟨rfl, ?_⟩
    simpa [_transform, rowCounts] using hlen
  | multi l =>
    refine ⟨rfl, ?_⟩
    simp only [_transform, rowCounts]
    exact sliceByLengths_map_length _ _ (le_of_eq hlen.symm)

/-- A concrete fitted transform (the identity on rows), for witnesses. -/
def idRowModel : Model := ⟨fun r => r⟩

/-- A concrete linear-estimator solver, for witnesses. -/
def constSolver : LinSolver := ⟨fun _ _ => (idRowModel, 0), fun _ _ => 0⟩

/-- A concrete TICA solver family, for witnesses. -/
def constSolverFam : Bool → Bool → LinSolver := fun _ _ => constSolver

/-- A concrete AE trainer, for witnesses. -/
def constTrainer : AeTrainer := ⟨fun _ _ _ _ _ => (idRowModel, 0), fun _ _ => 0⟩

/-- Two concrete series of lengths 3 and 2, one column. -/
def dataA : List Mat := [[[1], [2], [3]], [[4], [5]]]

/-- A concrete 5-row, 1-column matrix. -/
def matB : Mat := [[1], [2], [3], [4], [5]]

/-- A concrete dataset of four lag-0 sample pairs. -/
def ds4 : List Pair := [([1], [1]), ([2], [2]), ([3], [3]), ([4], [4])]

/-- A concrete single series with 10 rows. -/
def dataC : ApiData :=
  .single [[0], [1], [2], [3], [4], [5], [6], [7], [8], [9]]

/-- A concrete pooled 3-row matrix whose only column has sample
variance exactly 1. -/
def matPool : Mat := [[-1], [0], [1]]

/-- C1: for `tica` and `ae`, the dataset handed to `_transform` is the one
built with lag 0 whatever the lag used for fitting, so the transformed
output has one row per original observation: for a list input the result
is a list of arrays whose row counts are the original series lengths
`T_i` (not `T_i − lag`), and for a single series the result is a single
array with `T` rows. -/
theorem claim_C1 (S : Bool → Bool → LinSolver) (T : AeTrainer) (st : ℚ → ℚ)
    (dim : Option ℕ) (lag : ℕ) (km sym : Bool) (vs : Option ℚ) (B : ℕ)
    (w : Bool) (kwargs : PyDict) (n_epochs : ℕ) (perm : List ℕ)
    (hB : 1 ≤ B) :
    (∀ l : List Mat,
      isMulti (tica S st (.multi l) dim lag km sym vs B w perm).1 = true ∧
      rowCounts (tica S st (.multi l) dim lag km sym vs B w perm).1 =
        l.map List.length) ∧
    (∀ s : Mat,
      isMulti (tica S st (.single s) dim lag km sym vs B w perm).1 = false ∧
      rowCounts (tica S st (.single s) dim lag km sym vs B w perm).1 =
        [s.length]) ∧
    (∀ l : List Mat,
      isMulti (ae T st (.multi l) dim lag n_epochs vs B w kwargs perm).1 = true ∧
      rowCounts (ae T st (.multi l) dim lag n_epochs vs B w kwargs perm).1 =
        l.map List.length) ∧
    (∀ s : Mat,
      isMulti (ae T st (.single s) dim lag n_epochs vs B w kwargs perm).1 = false ∧
      rowCounts (ae T st (.single s) dim lag n_epochs vs B w kwargs perm).1 =
        [s.length]) := by
  refine ⟨fun l => ?_, fun s => ?_, fun l => ?_, fun s => ?_⟩
  · have h := rowCounts_transform st
      (ticaFit S (.multi l) dim lag km sym vs B perm).1 (.multi l) B hB w
    simpa only [isMulti, rowCounts] using h
  · have h := rowCounts_transform st
      (ticaFit S (.single s) dim lag km sym vs B perm).1 (.single s) B hB w
    simpa only [isMulti, rowCounts] using h
  · have h := rowCounts_transform st
      (aeFit T (.multi l) dim lag n_epochs vs B kwargs perm).1 (.multi l) B hB w
    simpa only [isMulti, rowCounts] using h
  · have h := rowCounts_transform st
      (aeFit T (.single s) dim lag n_epochs vs B kwargs perm).1 (.single s) B hB w
    simpa only [isMulti, rowCounts] using h

/-- C1 witness: two series of lengths 3 and 2, `lag = 1`, batch size 2:
the transformed output row counts are `[3, 2]`, the original lengths. -/
theorem claim_C1_witness :
    1 ≤ 2 ∧
    rowCounts (tica constSolverFam (fun q => q) (.multi dataA) (some 2) 1
      true false none 2 false []).1 = [3, 2] :=
  ⟨by decide,
   ((claim_C1 constSolverFam constTrainer (fun q => q) (some 2) 1 true false
      none 2 false [] 5 [] (by decide)).1 dataA).2⟩

theorem sliceByLengths_getD_length (td : Mat) (ls : List ℕ) (i : ℕ)
    (h : ls.sum ≤ td.length) (hi : i < ls.length) :
    ((sliceByLengths td ls).getD i []).length = ls.getD i 0 := by
  induction ls generalizing td i with
  | nil => simp at hi
  | cons L rest ih =>
    cases i with
    | zero =>
      simp only [List.sum_cons] at h
      simp only [sliceByLengths, List.getD_cons_zero, List.length_take,
        List.getD_cons_zero]
      omega
    | succ i =>
      simp only [List.sum_cons] at h
      simp only [List.length_cons, Nat.succ_lt_succ_iff] at hi
      simp only [sliceByLengths, List.getD_cons_succ]
      exact ih (td.drop L) i (by simp only [List.length_drop]; omega) hi

/-- C2: for every `pca`/`tica`/`ae` call, the returned transformed value
for a list input of lengths `[T_1, …, T_k]` is the list of the `k`
contiguous slices of the concatenated transformed matrix, the `i`-th
slice starting at offset `T_1 + … + T_{i-1}` and holding exactly `T_i`
rows, in input order; a single-array input yields the single
concatenated matrix itself.  The last conjunct shows the slicing premise
holds at every call: the concatenated matrix of the lag-0 dataset has
exactly `sum T_i` rows. -/
theorem claim_C2 :
    (∀ (S : LinSolver) (st : ℚ → ℚ) (data : ApiData) (dim : Option ℕ)
        (vs : Option ℚ) (B : ℕ) (w : Bool) (perm : List ℕ),
      (pca S st data dim vs B w perm).1 =
        _transform st (pcaFit S data dim vs B perm).1 data
          (create_dataset data 0) B w) ∧
    (∀ (S : Bool → Bool → LinSolver) (st : ℚ → ℚ) (data : ApiData)
        (dim : Option ℕ) (lag : ℕ) (km sym : Bool) (vs : Option ℚ) (B : ℕ)
        (w : Bool) (perm : List ℕ),
      (tica S st data dim lag km sym vs B w perm).1 =
        _transform st (ticaFit S data dim lag km sym vs B perm).1 data
          (create_dataset data 0) B w) ∧
    (∀ (T : AeTrainer) (st : ℚ → ℚ) (data : ApiData) (dim : Option ℕ)
        (lag n_epochs : ℕ) (vs : Option ℚ) (B : ℕ) (w : Bool)
        (kwargs : PyDict) (perm : List ℕ),
      (ae T st data dim lag n_epochs vs B w kwargs perm).1 =
        _transform st (aeFit T data dim lag n_epochs vs B kwargs perm).1 data
          (create_dataset data 0) B w) ∧
    (∀ (st : ℚ → ℚ) (m : Model) (l : List Mat) (d0 : List Pair) (B : ℕ)
        (w : Bool),
      _transform st m (.multi l) d0 B w =
        .multi (sliceByLengths (fullTransformed st m d0 B w)
          (l.map List.length))) ∧
    (∀ (st : ℚ → ℚ) (m : Model) (s : Mat) (d0 : List Pair) (B : ℕ) (w : Bool),
      _transform st m (.single s) d0 B w =
        .single (fullTransformed st m d0 B w)) ∧
    (∀ (td : Mat) (ls : List ℕ) (i : ℕ), ls.sum ≤ td.length → i < ls.length →
      (sliceByLengths td ls).length = ls.length ∧
      (sliceByLengths td ls).getD i [] =
        (td.drop ((ls.take i).sum)).take (ls.getD i 0) ∧
      ((sliceByLengths td ls).getD i []).length = ls.getD i 0) ∧
    (∀ (st : ℚ → ℚ) (m : Model) (data : ApiData) (B : ℕ) (w : Bool), 1 ≤ B →
      (fullTransformed st m (create_dataset data 0) B w).length =
        totalRows data) := by
  refine ⟨fun _ _ _ _ _ _ _ _ => rfl, fun _ _ _ _ _ _ _ _ _ _ _ => rfl,
    fun _ _ _ _ _ _ _ _ _ _ _ => rfl, fun _ _ _ _ _ _ => rfl,
    fun _ _ _ _ _ _ => rfl, fun td ls i h hi => ?_, fun st m data B w hB => ?_⟩
  · exact ⟨sliceByLengths_length td ls, sliceByLengths_getD td ls i h hi,
      sliceByLengths_getD_length td ls i h hi⟩
  · rw [fullTransformed_length st m _ B hB w, create_dataset_zero_length]

/-- C2 witness: slicing a concrete 5-row matrix by lengths `[3, 2]`, the
second chunk is rows 3–4 and has exactly 2 rows. -/
theorem claim_C2_witness :
    ([3, 2] : List ℕ).sum ≤ matB.length ∧ (1 : ℕ) < ([3, 2] : List ℕ).length ∧
    ((sliceByLengths matB [3, 2]).getD 1 [] =
      (matB.drop (([3, 2] : List ℕ).take 1).sum).take (([3, 2] : List ℕ).getD 1 0) ∧
     ((sliceByLengths matB [3, 2]).getD 1 []).length = ([3, 2] : List ℕ).getD 1 0) :=
  ⟨by decide, by decide,
   ((claim_C2.2.2.2.2.2.1 matB [3, 2] 1 (by decide) (by decide)).2.1),
   ((claim_C2.2.2.2.2.2.1 matB [3, 2] 1 (by decide) (by decide)).2.2)⟩

/-- C3: the batch iterator used by `transform` is deterministic and
order-stable: concatenating its batches in order recovers the dataset,
the `i`-th batch is the `i`-th consecutive block of `B` sample pairs,
and consequently the transformed output rows are exactly the per-row
transform of the input rows, in input order. -/
theorem claim_C3 (ds : List Pair) (B : ℕ) (hB : 1 ≤ B) :
    (toBatches B ds).flatten = ds ∧
    (∀ i, i < (toBatches B ds).length →
      (toBatches B ds).getD i [] = (ds.drop (B * i)).take B) ∧
    (∀ m : Model, m.transform (toBatches B ds) = ds.map (fun p => m.g p.1)) ∧
    (∀ (m : Model) (s : Mat),
      m.transform (toBatches B (create_dataset (.single s) 0)) = s.map m.g) := by
  refine ⟨toBatches_flatten B hB ds, fun i hi => toBatches_getD B hB ds i hi,
    fun m => Model.transform_toBatches m B hB ds, fun m s => ?_⟩
  rw [Model.transform_toBatches m B hB]
  show (s.zip (s.drop 0)).map (fun p => m.g p.1) = s.map m.g
  rw [List.drop_zero]
  calc (s.zip s).map (fun p => m.g p.1)
      = ((s.zip s).map Prod.fst).map m.g := (List.map_map ..).symm
    _ = s.map m.g := by rw [List.map_fst_zip s s le_rfl]

/-- C3 witness: batch size 2 over the four-pair dataset: flattening the
batches recovers the dataset and batch 1 is the pairs at indices 2–3. -/
theorem claim_C3_witness :
    1 ≤ 2 ∧ (toBatches 2 ds4).flatten = ds4 ∧
    (toBatches 2 ds4).getD 1 [] = (ds4.drop 2).take 2 :=
  ⟨by decide, (claim_C3 ds4 2 (by decide)).1,
   (claim_C3 ds4 2 (by decide)).2.1 1 (by decide)⟩

/-- C4: with `validation_split` absent, no split happens: the whole
dataset is the train loader, there is no test loader, the returned
validation loss is absent (`None`, reported as NaN), and the training
loss is the scalar the fit computes on the full-dataset loader. -/
theorem claim_C4 (S : LinSolver) (Stica : Bool → Bool → LinSolver)
    (T : AeTrainer) (st : ℚ → ℚ) (data : ApiData) (dim : Option ℕ)
    (lag n_epochs : ℕ) (km sym : Bool) (B : ℕ) (w : Bool) (kwargs : PyDict)
    (perm : List ℕ) :
    (∀ ds : List Pair, linLoaders ds none B perm = (toBatches B ds, none)) ∧
    (pca S st data dim none B w perm).2.2 = none ∧
    (pca S st data dim none B w perm).2.1 =
      (S.solve dim (statsOfLoader (toBatches B (create_dataset data 0)))).2 ∧
    (tica Stica st data dim lag km sym none B w perm).2.2 = none ∧
    (tica Stica st data dim lag km sym none B w perm).2.1 =
      ((Stica km sym).solve dim
        (statsOfLoader (toBatches B (create_dataset data lag)))).2 ∧
    (ae T st data dim lag n_epochs none B w kwargs perm).2.2 = none ∧
    (ae T st data dim lag n_epochs none B w kwargs perm).2.1 =
      (T.train (aeSize data) dim (pyUpdate aeDefaults kwargs)
        (toBatches B (create_dataset data lag)) n_epochs).2 :=
  ⟨fun _ => rfl, rfl, rfl, rfl, rfl, rfl, rfl⟩

/-- C5: the splitter on a dataset of size `N` with fraction `f ∈ (0,1)`
and a random permutation of the index range returns two subsets,
validation first, whose sizes sum to `N`, with validation size
`round(f·N)`; the two index blocks are disjoint and together are a
permutation of all indices, so every index lands in exactly one side;
and in the API the validation part is the one whose loader becomes the
fit's test loader. -/
theorem claim_C5 (ds : List Pair) (f : ℚ) (perm : List ℕ)
    (hperm : perm.Perm (List.range ds.length)) (hf0 : 0 < f) (hf1 : f < 1) :
    (random_split ds f perm).1.length = (round (f * (ds.length : ℚ))).toNat ∧
    (random_split ds f perm).1.length + (random_split ds f perm).2.length =
      ds.length ∧
    List.Disjoint (perm.take ((round (f * (ds.length : ℚ))).toNat))
      (perm.drop ((round (f * (ds.length : ℚ))).toNat)) ∧
    (perm.take ((round (f * (ds.length : ℚ))).toNat) ++
      perm.drop ((round (f * (ds.length : ℚ))).toNat)).Perm
        (List.range ds.length) ∧
    (∀ (S : LinSolver) (st : ℚ → ℚ) (data : ApiData) (dim : Option ℕ)
        (B : ℕ) (w : Bool) (g : ℚ) (p2 : List ℕ),
      (pca S st data dim (some g) B w p2).2.2 =
        some (S.lossOn (pcaFit S data dim (some g) B p2).1
          (statsOfLoader (toBatches B
            (random_split (create_dataset data 0) g p2).1)))) := by
  have hlen : perm.length = ds.length :=
    hperm.length_eq.trans (List.length_range _)
  have hm : (round (f * (ds.length : ℚ))).toNat ≤ ds.length := by
    have hN0 : (0 : ℚ) ≤ (ds.length : ℚ) := Nat.cast_nonneg _
    have h1 : f * (ds.length : ℚ) ≤ (ds.length : ℚ) := by nlinarith
    have hr : ((round (f * (ds.length : ℚ))) : ℚ) ≤ f * (ds.length : ℚ) + 1 / 2 :=
      round_le_add_half _
    have h2 : ((round (f * (ds.length : ℚ))) : ℚ) < (ds.length : ℚ) + 1 := by
      linarith
    have h3 : round (f * (ds.length : ℚ)) < (ds.length : ℤ) + 1 := by
      exact_mod_cast h2
    omega
  refine ⟨?_, ?_, ?_, ?_, fun S st data dim B w g p2 => rfl⟩
  · simp only [random_split, List.length_map, List.length_take, hlen]
    omega
  · simp only [random_split, List.length_map, List.length_take,
      List.length_drop, hlen]
    omega
  · exact List.disjoint_take_drop (hperm.nodup_iff.mpr (List.nodup_range _))
      le_rfl
  · rw [List.take_append_drop]
    exact hperm

/-- C5 witness: four pairs, `f = 1/2`, permutation `[2,0,3,1]`: the two
parts' sizes sum to 4. -/
theorem claim_C5_witness :
    List.Perm [2, 0, 3, 1] (List.range ds4.length) ∧
    (0 : ℚ) < 1 / 2 ∧ (1 : ℚ) / 2 < 1 ∧
    (random_split ds4 (1 / 2) [2, 0, 3, 1]).1.length +
      (random_split ds4 (1 / 2) [2, 0, 3, 1]).2.length = ds4.length :=
  ⟨by decide, by norm_num, by norm_num,
   (claim_C5 ds4 (1 / 2) [2, 0, 3, 1] (by decide) (by norm_num)
     (by norm_num)).2.1⟩

/-- C6 counterexample: the claim says the configuration is merged
field-by-field "and not by dynamic dictionary merging that would accept
unrecognized field names"; but `ae_args.update(kwargs)` is exactly such
a dynamic merge — a keyword argument whose name is not among the eight
documented fields is accepted into the configuration dictionary (and
forwarded to the AE constructor). -/
theorem claim_C6_counterexample :
    getKey? aeDefaults "frobnicate" = none ∧
    getKey? (pyUpdate aeDefaults [("frobnicate", AeVal.bool true)])
      "frobnicate" = some (AeVal.bool true) := by
  constructor <;> rfl

/-- C6 (amended): `ae`'s configuration is a plain dictionary with
exactly the documented fields and defaults (`hid_size=[100]`, dropout
rate 0.5, LeakyReLU activation, `lat_activation=None`,
`batch_normalization=None` (off), `bias=True`, `lr=0.001`,
`cuda=False`), merged with the caller's keyword overrides by dynamic
dictionary update: a supplied field replaces its default and unsupplied
fields keep their defaults, but unrecognized field names are accepted
into the dictionary as well. -/
theorem claim_C6 :
    (aeDefaults.map Prod.fst =
      ["hid_size", "dropout", "activation", "lat_activation",
       "batch_normalization", "bias", "lr", "cuda"] ∧
     getKey? aeDefaults "hid_size" = some (.natList [100]) ∧
     getKey? aeDefaults "dropout" = some (.dropoutModule (1 / 2)) ∧
     getKey? aeDefaults "activation" = some .leakyReLU ∧
     getKey? aeDefaults "lat_activation" = some .pyNone ∧
     getKey? aeDefaults "batch_normalization" = some .pyNone ∧
     getKey? aeDefaults "bias" = some (.bool true) ∧
     getKey? aeDefaults "lr" = some (.rat (1 / 1000)) ∧
     getKey? aeDefaults "cuda" = some (.bool false)) ∧
    (∀ (kwargs : PyDict) (k : String) (v : AeVal),
      (kwargs.map Prod.fst).Nodup → (k, v) ∈ kwargs →
      getKey? (pyUpdate aeDefaults kwargs) k = some v) ∧
    (∀ (kwargs : PyDict) (k : String), getKey? kwargs k = none →
      getKey? (pyUpdate aeDefaults kwargs) k = getKey? aeDefaults k) ∧
    (∀ (k : String) (v : AeVal),
      getKey? (pyUpdate aeDefaults [(k, v)]) k = some v) := by
  refine ⟨⟨rfl, rfl, rfl, rfl, rfl, rfl, rfl, rfl, rfl⟩,
    fun kwargs k v hnd hmem => getKey?_pyUpdate_of_mem aeDefaults kwargs k v hnd hmem,
    fun kwargs k h => getKey?_pyUpdate_of_none aeDefaults kwargs k h,
    fun k v => ?_⟩
  show getKey? (setKey aeDefaults (k, v)) k = some v
  exact getKey?_setKey_self aeDefaults (k, v)

/-- C6 witness: overriding `lr` replaces its default; `hid_size` was not
supplied and keeps its default. -/
theorem claim_C6_witness :
    ([("lr", AeVal.rat 1)].map Prod.fst).Nodup ∧
    ("lr", AeVal.rat 1) ∈ [("lr", AeVal.rat 1)] ∧
    getKey? [("lr", AeVal.rat 1)] "hid_size" = none ∧
    getKey? (pyUpdate aeDefaults [("lr", AeVal.rat 1)]) "lr" =
      some (AeVal.rat 1) ∧
    getKey? (pyUpdate aeDefaults [("lr", AeVal.rat 1)]) "hid_size" =
      getKey? aeDefaults "hid_size" :=
  ⟨by decide, by decide, by rfl,
   claim_C6.2.1 [("lr", AeVal.rat 1)] "lr" (AeVal.rat 1) (by decide) (by decide),
   claim_C6.2.2.1 [("lr", AeVal.rat 1)] "hid_size" (by rfl)⟩

/-- C7: for the linear estimators, the accumulated fit statistics — and
with them the whole `pca`/`tica` results (fitted transform, transformed
data, train and validation losses) — are the same for any two positive
batch sizes on the same input and the same split; for `ae`, the batch
size does change the gradient-update granularity: the train loader it
builds for the same data has 5 batches at batch size 2 but 3 batches at
batch size 3, i.e. a different number of parameter updates per epoch. -/
theorem claim_C7 :
    (∀ (ds : List Pair) (B1 B2 : ℕ), 1 ≤ B1 → 1 ≤ B2 →
      statsOfLoader (toBatches B1 ds) = statsOfLoader (toBatches B2 ds)) ∧
    (∀ (S : LinSolver) (st : ℚ → ℚ) (data : ApiData) (dim : Option ℕ)
        (vs : Option ℚ) (B1 B2 : ℕ) (w : Bool) (perm : List ℕ),
      1 ≤ B1 → 1 ≤ B2 →
      pca S st data dim vs B1 w perm = pca S st data dim vs B2 w perm) ∧
    (∀ (S : Bool → Bool → LinSolver) (st : ℚ → ℚ) (data : ApiData)
        (dim : Option ℕ) (lag : ℕ) (km sym : Bool) (vs : Option ℚ)
        (B1 B2 : ℕ) (w : Bool) (perm : List ℕ), 1 ≤ B1 → 1 ≤ B2 →
      tica S st data dim lag km sym vs B1 w perm =
        tica S st data dim lag km sym vs B2 w perm) ∧
    ((linLoaders (create_dataset dataC 1) none 2 []).1.length = 5 ∧
     (linLoaders (create_dataset dataC 1) none 3 []).1.length = 3) := by
  refine ⟨fun ds B1 B2 h1 h2 => ?_, fun S st data dim vs B1 B2 w perm h1 h2 => ?_,
    fun S st data dim lag km sym vs B1 B2 w perm h1 h2 => ?_, by decide, by decide⟩
  · rw [statsOfLoader_toBatches B1 h1, statsOfLoader_toBatches B2 h2]
  · rw [pca_batchFree S st data dim vs B1 w perm h1,
      pca_batchFree S st data dim vs B2 w perm h2]
  · rw [tica_batchFree S st data dim lag km sym vs B1 w perm h1,
      tica_batchFree S st data dim lag km sym vs B2 w perm h2]

/-- C7 witness: on two concrete series, `pca` with batch size 2 and
batch size 3 returns identical results. -/
theorem claim_C7_witness :
    1 ≤ 2 ∧ 1 ≤ 3 ∧
    pca constSolver (fun q => q) (.multi dataA) none none 2 false [] =
      pca constSolver (fun q => q) (.multi dataA) none none 3 false [] :=
  ⟨by decide, by decide,
   claim_C7.2.1 constSolver (fun q => q) (.multi dataA) none none 2 3 false []
     (by decide) (by decide)⟩

/-- C8: in every `pca`/`tica`/`ae` call, the whitening post-processor is
applied to the model's transformed output exactly when `whiten = true`;
with `whiten = false` the model's transform output is reassembled
unrescaled. -/
theorem claim_C8 (S : LinSolver) (Stica : Bool → Bool → LinSolver)
    (T : AeTrainer) (st : ℚ → ℚ) (data : ApiData) (dim : Option ℕ)
    (lag n_epochs : ℕ) (km sym : Bool) (vs : Option ℚ) (B : ℕ)
    (kwargs : PyDict) (perm : List ℕ) :
    (pca S st data dim vs B true perm).1 =
      reassemble data (whiten_data st ((pcaFit S data dim vs B perm).1.transform
        (toBatches B (create_dataset data 0)))) ∧
    (pca S st data dim vs B false perm).1 =
      reassemble data ((pcaFit S data dim vs B perm).1.transform
        (toBatches B (create_dataset data 0))) ∧
    (tica Stica st data dim lag km sym vs B true perm).1 =
      reassemble data (whiten_data st
        ((ticaFit Stica data dim lag km sym vs B perm).1.transform
          (toBatches B (create_dataset data 0)))) ∧
    (tica Stica st data dim lag km sym vs B false perm).1 =
      reassemble data ((ticaFit Stica data dim lag km sym vs B perm).1.transform
        (toBatches B (create_dataset data 0))) ∧
    (ae T st data dim lag n_epochs vs B true kwargs perm).1 =
      reassemble data (whiten_data st
        ((aeFit T data dim lag n_epochs vs B kwargs perm).1.transform
          (toBatches B (create_dataset data 0)))) ∧
    (ae T st data dim lag n_epochs vs B false kwargs perm).1 =
      reassemble data ((aeFit T data dim lag n_epochs vs B kwargs perm).1.transform
        (toBatches B (create_dataset data 0))) :=
  ⟨_transform_eq_reassemble st _ data _ B true,
   _transform_eq_reassemble st _ data _ B false,
   _transform_eq_reassemble st _ data _ B true,
   _transform_eq_reassemble st _ data _ B false,
   _transform_eq_reassemble st _ data _ B true,
   _transform_eq_reassemble st _ data _ B false⟩

/-- C9: when `ae` receives a list of series, the encoder input width is
read from the first series only (`data[0].shape[1]`, via the
`AttributeError` fallback, since a list has no `shape`); series after
the first — even with a different column count — do not influence it,
and this width is what the fit stage passes to the AE constructor. -/
theorem claim_C9 :
    (∀ (s : Mat) (rest rest2 : List Mat),
      aeSize (.multi (s :: rest)) = (s.headD []).length ∧
      aeSize (.multi (s :: rest)) = aeSize (.multi (s :: rest2))) ∧
    aeSize (.multi [[[1, 2]], [[3, 4, 5]]]) = 2 ∧
    (∀ (T : AeTrainer) (data : ApiData) (dim : Option ℕ)
        (lag n_epochs : ℕ) (vs : Option ℚ) (B : ℕ) (kwargs : PyDict)
        (perm : List ℕ),
      (aeFit T data dim lag n_epochs vs B kwargs perm).1 =
        (T.train (aeSize data) dim (pyUpdate aeDefaults kwargs)
          (linLoaders (create_dataset data lag) vs B perm).1 n_epochs).1) :=
  ⟨fun _ _ _ => ⟨rfl, rfl⟩, rfl,
   fun _ _ _ _ _ _ _ _ _ => rfl⟩

/-- C10: with `whiten = true` and list input, whitening is applied to
the concatenated transformed matrix before it is sliced back into
per-series chunks; each column therefore has unit sample variance over
all series pooled together (for an exact square root of a nonzero
variance), not within each individual series: in the concrete example,
the pooled column has variance 1, yet the first per-series chunk's
column has variance 1/2. -/
theorem claim_C10 :
    (∀ (st : ℚ → ℚ) (m : Model) (l : List Mat) (d0 : List Pair) (B : ℕ),
      _transform st m (.multi l) d0 B true =
        .multi (sliceByLengths (whiten_data st (m.transform (toBatches B d0)))
          (l.map List.length))) ∧
    (∀ (st : ℚ → ℚ) (M : Mat) (j : ℕ),
      st (colVar M j) ^ 2 = colVar M j → colVar M j ≠ 0 →
      colVar (whiten_data st M) j = 1) ∧
    (colVar matPool 0 = 1 ∧
     whiten_data (fun q => q) matPool = matPool ∧
     colVar ((sliceByLengths (whiten_data (fun q => q) matPool) [2, 1]).getD 0 []) 0
       = 1 / 2 ∧
     colVar ((sliceByLengths (whiten_data (fun q => q) matPool) [2, 1]).getD 0 []) 0
       ≠ 1) := by
  have h1 : colVar matPool 0 = 1 := by
    norm_num [colVar, colMean, matPool]
  have h2 : whiten_data (fun q => q) matPool = matPool := by
    norm_num [whiten_data, whitenRow, colVar, colMean, matPool,
      List.range_succ, List.range_zero]
  have h3 : colVar ((sliceByLengths (whiten_data (fun q => q) matPool)
      [2, 1]).getD 0 []) 0 = 1 / 2 := by
    rw [h2]
    norm_num [sliceByLengths, colVar, colMean, matPool]
  refine ⟨fun _ _ _ _ _ => rfl,
    fun st M j hs hv => colVar_whiten st M j hs hv,
    h1, h2, h3, by rw [h3]; norm_num⟩

/-- C10 witness: on the pooled matrix with column variance 1 and the
exact square root `fun q => q` (which fixes 1), global whitening leaves
the column at unit sample variance. -/
theorem claim_C10_witness :
    ((fun q : ℚ => q) (colVar matPool 0)) ^ 2 = colVar matPool 0 ∧
    colVar matPool 0 ≠ 0 ∧
    colVar (whiten_data (fun q : ℚ => q) matPool) 0 = 1 :=
  ⟨by norm_num [colVar, colMean, matPool],
   by norm_num [colVar, colMean, matPool],
   claim_C10.2.1 (fun q => q) matPool 0
     (by norm_num [colVar, colMean, matPool])
     (by norm_num [colVar, colMean, matPool])⟩

end Tae
